import Mathlib

/-!
A verification development for the polarWarp oplog aggregation engine.

The definitions below are a shallow embedding of the Rust sources
(src/rust/src/main.rs is the current generation, src/polarwarp-rs the
earlier one): i64 machine integers become Lean Int, nanosecond durations
stay integral (the final division by 1e9 only rescales and never changes
the sign or zeroness of a duration, so every comparison against 0 made by
the code is preserved exactly), a dataframe becomes a list of records,
and the polars lazy queries become explicit list computations.
-/

namespace PolarWarp

set_option maxHeartbeats 1000000

/-! ### Size buckets (src/rust/src/main.rs, bucket constants and add_size_buckets) -/

def BUCKET_8K : Int := 8 * 1024
def BUCKET_64K : Int := 64 * 1024
def BUCKET_512K : Int := 512 * 1024
def BUCKET_4M : Int := 4 * 1024 * 1024
def BUCKET_32M : Int := 32 * 1024 * 1024
def BUCKET_256M : Int := 256 * 1024 * 1024
def BUCKET_2G : Int := 2 * 1024 * 1024 * 1024

/-- Bucket ordinal assigned by the when/otherwise chain of add_size_buckets
(the bucket_num column of the dataframe). -/
def bucket_num (bytes : Int) : Nat :=
  if bytes = 0 then 0
  else if 1 ≤ bytes ∧ bytes < BUCKET_8K then 1
  else if BUCKET_8K ≤ bytes ∧ bytes < BUCKET_64K then 2
  else if BUCKET_64K ≤ bytes ∧ bytes < BUCKET_512K then 3
  else if BUCKET_512K ≤ bytes ∧ bytes < BUCKET_4M then 4
  else if BUCKET_4M ≤ bytes ∧ bytes < BUCKET_32M then 5
  else if BUCKET_32M ≤ bytes ∧ bytes < BUCKET_256M then 6
  else if BUCKET_256M ≤ bytes ∧ bytes < BUCKET_2G then 7
  else 8

/-- Bucket label column of add_size_buckets (BUCKET_LABELS selected by the
same when/otherwise chain as bucket_num). -/
def bucket_label (bytes : Int) : String :=
  if bytes = 0 then "zero"
  else if 1 ≤ bytes ∧ bytes < BUCKET_8K then "1B-8KiB"
  else if BUCKET_8K ≤ bytes ∧ bytes < BUCKET_64K then "8KiB-64KiB"
  else if BUCKET_64K ≤ bytes ∧ bytes < BUCKET_512K then "64KiB-512KiB"
  else if BUCKET_512K ≤ bytes ∧ bytes < BUCKET_4M then "512KiB-4MiB"
  else if BUCKET_4M ≤ bytes ∧ bytes < BUCKET_32M then "4MiB-32MiB"
  else if BUCKET_32M ≤ bytes ∧ bytes < BUCKET_256M then "32MiB-256MiB"
  else if BUCKET_256M ≤ bytes ∧ bytes < BUCKET_2G then "256MiB-2GiB"
  else ">2GiB"

/-- The 8-bucket scheme of the earlier generation
(src/polarwarp-rs/src/types.rs). -/
inductive ByteBucket where
  | None
  | Small
  | Medium
  | Large
  | XLarge
  | XXLarge
  | XXXLarge
  | Gigantic
deriving DecidableEq, Repr

/-- ByteBucket from_bytes: the Rust match over i64 ranges; any value not
covered by the 0 arm or a positive range arm (in particular every negative
value) falls to the wildcard arm and becomes Gigantic. -/
def ByteBucket.from_bytes (bytes : Int) : ByteBucket :=
  if bytes = 0 then .None
  else if 1 ≤ bytes ∧ bytes ≤ 32767 then .Small
  else if 32768 ≤ bytes ∧ bytes ≤ 131071 then .Medium
  else if 131072 ≤ bytes ∧ bytes ≤ 1048575 then .Large
  else if 1048576 ≤ bytes ∧ bytes ≤ 8388607 then .XLarge
  else if 8388608 ≤ bytes ∧ bytes ≤ 67108863 then .XXLarge
  else if 67108864 ≤ bytes ∧ bytes ≤ 1047527422 then .XXXLarge
  else .Gigantic

/-- ByteBucket to_bucket_number. -/
def ByteBucket.to_bucket_number : ByteBucket → Nat
  | .None => 0
  | .Small => 1
  | .Medium => 2
  | .Large => 3
  | .XLarge => 4
  | .XXLarge => 5
  | .XXXLarge => 6
  | .Gigantic => 7

/-- The 9 bucket ranges exactly as the specification states them: bucket k
contains the non-negative integer n iff n lies in the k-th boundary
interval; indices outside 0..8 contain nothing. -/
def InSpecBucket (k : Nat) (n : Nat) : Prop :=
  (k = 0 ∧ n = 0) ∨
  (k = 1 ∧ 0 < n ∧ n < 8192) ∨
  (k = 2 ∧ 8192 ≤ n ∧ n < 65536) ∨
  (k = 3 ∧ 65536 ≤ n ∧ n < 524288) ∨
  (k = 4 ∧ 524288 ≤ n ∧ n < 4194304) ∨
  (k = 5 ∧ 4194304 ≤ n ∧ n < 33554432) ∨
  (k = 6 ∧ 33554432 ≤ n ∧ n < 268435456) ∨
  (k = 7 ∧ 268435456 ≤ n ∧ n < 2147483648) ∨
  (k = 8 ∧ 2147483648 ≤ n)

instance (k n : Nat) : Decidable (InSpecBucket k n) := by
  unfold InSpecBucket; infer_instance

/-! ### Records and per-file time handling (src/rust/src/main.rs) -/

/-- One parsed oplog row, after the timestamp collaborator has produced
start_ns and end_ns; only the fields the aggregation engine reads. -/
structure Record where
  op : String
  bytes : Int
  duration_ns : Int
  start_ns : Int
  end_ns : Int
deriving DecidableEq, Repr

/-- Operation names grouped as the META category. -/
def META_OPS : List String := ["LIST", "HEAD", "DELETE", "STAT"]

/-- get_time_range: the code takes the FIRST non-null start_ns and the LAST
non-null end_ns of the record set (both generations do this, via iterator
next and last in main.rs and via first/last non-null scans in
polarwarp-rs parser.rs); none when the set is empty. -/
def get_time_range (rs : List Record) : Option (Int × Int) :=
  match rs.head?, rs.getLast? with
  | some a, some b => some (a.start_ns, b.end_ns)
  | _, _ => none

/-- The skip-time filter of process_file: keep exactly the rows whose
start_ns is strictly greater than the threshold. -/
def skip_filter (rs : List Record) (threshold : Int) : List Record :=
  rs.filter (fun r => decide (threshold < r.start_ns))

/-- process_file time handling: derive the file window, apply the skip
filter once when a skip is configured, and hand the (possibly filtered)
record set with its effective start and end to the aggregation step.
Returns none when the record set is empty (NoValidData in the source). -/
def process_file (rs : List Record) (skip : Option Int) :
    Option (List Record × Int × Int) :=
  match get_time_range rs with
  | none => none
  | some (s, e) =>
    match skip with
    | some k => some (skip_filter rs (s + k), s + k, e)
    | none => some (rs, s, e)

/-! ### Per-category effective time (compute_op_run_time, op_eff_time) -/

/-- The rows whose op is one of the given operation names (the
lit(false).or(col(op).eq(...)) filter of the source). -/
def category_filter (rs : List Record) (ops : List String) : List Record :=
  rs.filter (fun r => ops.contains r.op)

/-- compute_op_run_time in nanoseconds: min(start_ns) to max(end_ns) of
the rows matching the operation set; 0 when the set is empty or the span
is not positive (the source returns 0.0 f64 seconds in those cases). -/
def compute_op_run_time (rs : List Record) (ops : List String) : Int :=
  match ((category_filter rs ops).map Record.start_ns).min?,
        ((category_filter rs ops).map Record.end_ns).max? with
  | some s, some e => if s < e then e - s else 0
  | _, _ => 0

/-- The shared fallback step: use t when positive, otherwise the overall
run time (the `if t > 0.0 { t } else { run_time_secs }` of the source,
also used by compute_and_print_summary_row). -/
def eff_or_run (t rt : Int) : Int := if 0 < t then t else rt

/-- The op_eff_time closure of compute_and_display_stats: select the
category window for META/GET/PUT, the overall run time for any other op,
then fall back to the overall run time when the selected value is not
positive. -/
def op_eff_time (rs : List Record) (rt : Int) (op : String) : Int :=
  eff_or_run
    (if META_OPS.contains op then compute_op_run_time rs META_OPS
     else if op = "GET" then compute_op_run_time rs ["GET"]
     else if op = "PUT" then compute_op_run_time rs ["PUT"]
     else rt)
    rt

/-- Effective category time written directly from the specification's
words: the window (min start_ns, max end_ns) over the records in the
category; if the category has no records, or the computed duration is not
positive, fall back to the overall file run time. Stated separately from
compute_op_run_time and op_eff_time so the code can be proved to refine
it. -/
def spec_effective_time (rs : List Record) (rt : Int) (ops : List String) : Int :=
  match ((category_filter rs ops).map Record.start_ns).min?,
        ((category_filter rs ops).map Record.end_ns).max? with
  | some s, some e => if 0 < e - s then e - s else rt
  | _, _ => rt

/-- The denominator the specification claims for rows whose operation is
in none of META/GET/PUT: the effective window over the records of those
other operations, with the same empty/non-positive fallback. Written from
the spec's words, for comparison against op_eff_time. -/
def claimed_other_denominator (rs : List Record) (rt : Int) : Int :=
  match ((rs.filter (fun r =>
            !(META_OPS.contains r.op || r.op == "GET" || r.op == "PUT"))).map
          Record.start_ns).min?,
        ((rs.filter (fun r =>
            !(META_OPS.contains r.op || r.op == "GET" || r.op == "PUT"))).map
          Record.end_ns).max? with
  | some s, some e => if 0 < e - s then e - s else rt
  | _, _ => rt

/-! ### Multi-file consolidation (main.rs global fold, processor.rs
find_time_range) -/

/-- Errors of the consolidation step (src/polarwarp-rs/src/types.rs). -/
inductive ConsolidateError where
  | NoValidData
  | NoOverlappingTimeRange
deriving DecidableEq, Repr

/-- One file's derived window, as carried into consolidation. -/
structure FileWindow where
  start_time : Int
  end_time : Int
deriving DecidableEq, Repr

/-- Skip-adjusted start of one file (find_time_range adds the skip
duration to each file's start; the main.rs generation arrives at the same
value because process_file already returned the skip-adjusted start). -/
def adj_start (skip : Option Int) (w : FileWindow) : Int :=
  match skip with
  | some k => w.start_time + k
  | none => w.start_time

/-- One iteration of the consolidation loop: raise the running global
start to this file's adjusted start, lower the running global end to this
file's end (None means no file seen yet). -/
def ftr_step (skip : Option Int) (acc : Option Int × Option Int)
    (w : FileWindow) : Option Int × Option Int :=
  (some (match acc.1 with
         | some c => max c (adj_start skip w)
         | none => adj_start skip w),
   some (match acc.2 with
         | some c => min c w.end_time
         | none => w.end_time))

/-- find_time_range: fold the per-file windows, then fail with
NoOverlappingTimeRange when the global start is not strictly before the
global end, and with NoValidData when there was no file at all. -/
def find_time_range (ws : List FileWindow) (skip : Option Int) :
    Except ConsolidateError (Int × Int) :=
  match ws.foldl (ftr_step skip) (none, none) with
  | (some gs, some ge) =>
      if gs ≥ ge then .error .NoOverlappingTimeRange else .ok (gs, ge)
  | _ => .error .NoValidData

/-! ### Lexicographic order on operation names

The sort of the output rows compares the op column as strings. The
embedding uses a structural codepoint-wise comparison (identical to the
bytewise UTF-8 order the dataframe engine applies), defined by recursion
so that concrete sorts evaluate. -/

/-- Lexicographic comparison of char lists by codepoint. -/
def charListLe : List Char → List Char → Bool
  | [], _ => true
  | _ :: _, [] => false
  | a :: as, b :: bs =>
    if a.toNat < b.toNat then true
    else if b.toNat < a.toNat then false
    else charListLe as bs

/-- Lexicographic order on strings. -/
def strLe (a b : String) : Bool := charListLe a.data b.data

/-! ### Grouped per-bucket rows (compute_and_display_stats group_by/sort,
and calculate_file_stats in the earlier generation) -/

/-- Grouping key of the group_by: the bucket ordinal and the operation
name. The bytes_bucket label also participates in the source's key but is
determined by the ordinal (both columns are produced by the same boundary
chain), so (bucket_num, op) identifies a group. -/
def rkey (r : Record) : Nat × String := (bucket_num r.bytes, r.op)

/-- The sort order of the output rows: ascending bucket ordinal, ties on
the operation name broken lexically (the
sort(["bucket_num", "op"], ascending) of the source). -/
def keyLE (a b : Nat × String) : Prop :=
  a.1 < b.1 ∨ (a.1 = b.1 ∧ strLe a.2 b.2 = true)

/-- Strict version of keyLE, for stating that the rows are strictly
ascending. -/
def keyLT (a b : Nat × String) : Prop := keyLE a b ∧ a ≠ b

instance (a b : Nat × String) : Decidable (keyLE a b) :=
  inferInstanceAs (Decidable (a.1 < b.1 ∨ (a.1 = b.1 ∧ strLe a.2 b.2 = true)))

instance (a b : Nat × String) : Decidable (keyLT a b) :=
  inferInstanceAs (Decidable (keyLE a b ∧ a ≠ b))

/-- The distinct group keys of a record set, in output order. The polars
group_by enumerates groups in unspecified order; the subsequent sort by
(bucket_num, op) makes the order canonical, which the embedding realises
by sorting the deduplicated key list. -/
def sorted_keys (rs : List Record) : List (Nat × String) :=
  List.insertionSort keyLE ((rs.map rkey).dedup)

/-- One output row of the grouped aggregation. Latency statistics
(mean/median/percentiles/max) are functions of the sorted duration
multiset, and throughput of count and bytes_sum, so the row carries those
canonical aggregates. -/
structure AggRow where
  bucket : Nat
  op : String
  count : Nat
  durations : List Int
  bytes_sum : Int
deriving DecidableEq, Repr

/-- The aggregate row of one group key. -/
def group_of (rs : List Record) (k : Nat × String) : AggRow :=
  { bucket := k.1
    op := k.2
    count := (rs.filter (fun r => decide (rkey r = k))).length
    durations := List.insertionSort (fun a b => a ≤ b)
      ((rs.filter (fun r => decide (rkey r = k))).map Record.duration_ns)
    bytes_sum := ((rs.filter (fun r => decide (rkey r = k))).map Record.bytes).sum }

/-- The grouped, sorted output rows of compute_and_display_stats. Every
key present in the record set has at least one matching row, so the
source's zero-count suppression never removes any of these rows. -/
def grouped_rows (rs : List Record) : List AggRow :=
  (sorted_keys rs).map (group_of rs)

/-! ### Emitted throughput denominators (compute_and_display_stats,
compute_and_print_summary_row) -/

/-- Denominators of the three category summary rows, in the order the
source prints them; a category whose filtered count is zero is omitted
(the early return of compute_and_print_summary_row). -/
def summary_denominators (rs : List Record) (rt : Int) : List Int :=
  (if (category_filter rs META_OPS).length = 0 then []
   else [eff_or_run (compute_op_run_time rs META_OPS) rt]) ++
  (if (category_filter rs ["GET"]).length = 0 then []
   else [eff_or_run (compute_op_run_time rs ["GET"]) rt]) ++
  (if (category_filter rs ["PUT"]).length = 0 then []
   else [eff_or_run (compute_op_run_time rs ["PUT"]) rt])

/-- Every throughput denominator the report divides by: one per emitted
bucket row (op_eff_time of that row's op), one per emitted category
summary row, and the overall run time used by the always-printed
grand-total ops/sec line. The printed value is finite iff its
denominator here is nonzero. -/
def emitted_denominators (rs : List Record) (rt : Int) : List Int :=
  (grouped_rows rs).map (fun row => op_eff_time rs rt row.op) ++
  summary_denominators rs rt ++ [rt]

/-! ### Percentiles -/

/-- Total list indexing with default 0, written structurally so concrete
evaluations reduce. -/
def nthD (xs : List ℚ) (i : Nat) : ℚ :=
  match xs, i with
  | [], _ => 0
  | x :: _, 0 => x
  | _ :: t, i + 1 => nthD t i

/-- Modelled from the spec: the quantile kernel the source invokes as
polars QuantileMethod::Linear (in compute_and_display_stats and the
summary rows) is library code outside this repository; per the
specification it is the standard type-7 quantile on the sorted sample:
index = p * (n - 1), linear interpolation between the floor and ceil
order statistics. -/
def quantile_linear (xs : List ℚ) (p : ℚ) : ℚ :=
  match xs with
  | [] => 0
  | _ :: _ =>
    let idx : ℚ := p * ((xs.length : ℚ) - 1)
    let lo : Nat := Int.toNat ⌊idx⌋
    let frac : ℚ := idx - (lo : ℚ)
    nthD xs lo + frac * (nthD xs (lo + 1) - nthD xs lo)

/-- The p90 latency column in microseconds: the 0.90 linear quantile of
the group's duration_ns values, divided by 1000 (the
quantile(0.90, Linear) / 1000.0 aggregation expression). -/
def p90_lat_us (durs : List Int) : ℚ :=
  quantile_linear
    ((List.insertionSort (fun a b => a ≤ b) durs).map (fun d => (d : ℚ)))
    (9 / 10) / 1000

/-! ### Concrete records used by counterexamples and witnesses -/

def exGet : Record := ⟨"GET", 4096, 5000, 10, 20⟩

def cex5 : Record := ⟨"GET", 0, 5000, 100, 100⟩

def cex6 : Record := ⟨"OTHER", 0, 1000, 0, 10⟩

def c4_first : Record := ⟨"GET", 0, 1000, 100, 150⟩

def c4_second : Record := ⟨"GET", 0, 1000, 0, 50⟩

def ex4 : List Record := [⟨"GET", 0, 1, 0, 50⟩, ⟨"PUT", 0, 2, 10, 60⟩]

def ex8a : Record := ⟨"GET", 0, 1000, 0, 10⟩

def ex8b : Record := ⟨"GET", 0, 1000, 95, 100⟩

def ex8 : List Record := [ex8a, ex8b]

def ex9a : List Record :=
  [⟨"PUT", 10000, 5, 0, 10⟩, ⟨"GET", 0, 7, 2, 12⟩, ⟨"GET", 10000, 9, 3, 13⟩]

def ex9b : List Record :=
  [⟨"GET", 10000, 9, 3, 13⟩, ⟨"PUT", 10000, 5, 0, 10⟩, ⟨"GET", 0, 7, 2, 12⟩]

/-! ### Helper lemmas: the string order is total, transitive and
antisymmetric -/

theorem char_toNat_inj (a b : Char) (h : a.toNat = b.toNat) : a = b := by
  have h3 : a.val.toBitVec = b.val.toBitVec := by
    apply BitVec.eq_of_toNat_eq
    exact h
  exact Char.eq_of_val_eq (congrArg UInt32.mk h3)

theorem charListLe_total : ∀ a b, charListLe a b = true ∨ charListLe b a = true := by
  intro a
  induction a with
  | nil => intro b; left; rfl
  | cons x xs ih =>
    intro b
    cases b with
    | nil => right; rfl
    | cons y ys =>
      by_cases h1 : x.toNat < y.toNat
      · left; simp [charListLe, h1]
      · by_cases h2 : y.toNat < x.toNat
        · right; simp [charListLe, h2]
        · rcases ih ys with h | h
          · left; simp [charListLe, h1, h2, h]
          · right; simp [charListLe, h1, h2, h]

theorem charListLe_trans :
    ∀ a b c, charListLe a b = true → charListLe b c = true →
      charListLe a c = true := by
  intro a
  induction a with
  | nil => intro b c _ _; rfl
  | cons x xs ih =>
    intro b c hab hbc
    cases b with
    | nil => simp [charListLe] at hab
    | cons y ys =>
      cases c with
      | nil => simp [charListLe] at hbc
      | cons z zs =>
        have hxy : x.toNat < y.toNat ∨ (x.toNat = y.toNat ∧ charListLe xs ys = true) := by
          by_cases h1 : x.toNat < y.toNat
          · exact Or.inl h1
          · by_cases h2 : y.toNat < x.toNat
            · simp [charListLe, h1, h2] at hab
            · exact Or.inr ⟨by omega, by simpa [charListLe, h1, h2] using hab⟩
        have hyz : y.toNat < z.toNat ∨ (y.toNat = z.toNat ∧ charListLe ys zs = true) := by
          by_cases h1 : y.toNat < z.toNat
          · exact Or.inl h1
          · by_cases h2 : z.toNat < y.toNat
            · simp [charListLe, h1, h2] at hbc
            · exact Or.inr ⟨by omega, by simpa [charListLe, h1, h2] using hbc⟩
        rcases hxy with h1 | ⟨h1, hle1⟩ <;> rcases hyz with h2 | ⟨h2, hle2⟩
        · simp [charListLe, show x.toNat < z.toNat by omega]
        · simp [charListLe, show x.toNat < z.toNat by omega]
        · simp [charListLe, show x.toNat < z.toNat by omega]
        · simp [charListLe, show ¬(x.toNat < z.toNat) by omega,
            show ¬(z.toNat < x.toNat) by omega]
          exact ih ys zs hle1 hle2

theorem charListLe_antisymm :
    ∀ a b, charListLe a b = true → charListLe b a = true → a = b := by
  intro a
  induction a with
  | nil =>
    intro b _ hba
    cases b with
    | nil => rfl
    | cons y ys => simp [charListLe] at hba
  | cons x xs ih =>
    intro b hab hba
    cases b with
    | nil => simp [charListLe] at hab
    | cons y ys =>
      by_cases h1 : x.toNat < y.toNat
      · simp [charListLe, show ¬(y.toNat < x.toNat) by omega, h1] at hba
      · by_cases h2 : y.toNat < x.toNat
        · simp [charListLe, h1, h2] at hab
        · have hx : x = y := char_toNat_inj x y (by omega)
          subst hx
          have hxs : xs = ys :=
            ih ys (by simpa [charListLe, h1, h2] using hab)
              (by simpa [charListLe, h1, h2] using hba)
          rw [hxs]

theorem strLe_total (a b : String) : strLe a b = true ∨ strLe b a = true :=
  charListLe_total a.data b.data

theorem strLe_trans {a b c : String} (h1 : strLe a b = true)
    (h2 : strLe b c = true) : strLe a c = true :=
  charListLe_trans a.data b.data c.data h1 h2

theorem strLe_antisymm {a b : String} (h1 : strLe a b = true)
    (h2 : strLe b a = true) : a = b := by
  have h := charListLe_antisymm a.data b.data h1 h2
  cases a
  cases b
  exact congrArg String.mk (by simpa using h)

instance : IsTotal (Nat × String) keyLE where
  total a b := by
    unfold keyLE
    rcases Nat.lt_trichotomy a.1 b.1 with h | h | h
    · exact Or.inl (Or.inl h)
    · rcases strLe_total a.2 b.2 with h2 | h2
      · exact Or.inl (Or.inr ⟨h, h2⟩)
      · exact Or.inr (Or.inr ⟨h.symm, h2⟩)
    · exact Or.inr (Or.inl h)

instance : IsTrans (Nat × String) keyLE where
  trans a b c hab hbc := by
    unfold keyLE at *
    rcases hab with h | ⟨h1, h2⟩ <;> rcases hbc with g | ⟨g1, g2⟩
    · exact Or.inl (h.trans g)
    · exact Or.inl (g1 ▸ h)
    · exact Or.inl (h1 ▸ g)
    · exact Or.inr ⟨h1.trans g1, strLe_trans h2 g2⟩

instance : IsAntisymm (Nat × String) keyLE where
  antisymm a b hab hba := by
    unfold keyLE at *
    rcases hab with h | ⟨h1, h2⟩ <;> rcases hba with g | ⟨g1, g2⟩ <;>
      first
        | exact absurd h (by omega)
        | exact absurd g (by omega)
        | exact Prod.ext h1 (strLe_antisymm h2 g2)

instance : IsTotal Int (fun a b : Int => a ≤ b) := ⟨le_total⟩

instance : IsTrans Int (fun a b : Int => a ≤ b) :=
  ⟨fun _ _ _ h1 h2 => le_trans h1 h2⟩

instance : IsAntisymm Int (fun a b : Int => a ≤ b) :=
  ⟨fun _ _ h1 h2 => le_antisymm h1 h2⟩

/-! ### Other helper lemmas -/

/-- Folding ftr_step from an already-populated accumulator computes the
running max of adjusted starts and the running min of ends. -/
theorem ftr_fold (skip : Option Int) :
    ∀ (l : List FileWindow) (a b : Int),
      l.foldl (ftr_step skip) (some a, some b)
        = (some (l.foldl (fun x w => max x (adj_start skip w)) a),
           some (l.foldl (fun x w => min x w.end_time) b)) := by
  intro l
  induction l with
  | nil => intro a b; rfl
  | cons w t ih =>
    intro a b
    simp only [List.foldl_cons]
    rw [show ftr_step skip (some a, some b) w
        = (some (max a (adj_start skip w)), some (min b w.end_time)) from rfl]
    exact ih _ _

/-- The code's two-stage fallback (0 sentinel inside compute_op_run_time,
then eff_or_run) equals the spec's one-stage description of the effective
category time. -/
theorem compute_then_fallback (rs : List Record) (rt : Int) (ops : List String) :
    eff_or_run (compute_op_run_time rs ops) rt = spec_effective_time rs rt ops := by
  unfold eff_or_run compute_op_run_time spec_effective_time
  rcases h1 : ((category_filter rs ops).map Record.start_ns).min? with _ | s <;>
    rcases h2 : ((category_filter rs ops).map Record.end_ns).max? with _ | e <;>
      simp only [h1, h2] <;> split_ifs <;> omega

/-- With a positive fallback the eff_or_run value is positive. -/
theorem eff_or_run_pos (t rt : Int) (h : 0 < rt) : 0 < eff_or_run t rt := by
  unfold eff_or_run
  split_ifs with h1
  · exact h1
  · exact h

/-- With a positive overall run time every op_eff_time value is
positive. -/
theorem op_eff_time_pos (rs : List Record) (rt : Int) (op : String)
    (h : 0 < rt) : 0 < op_eff_time rs rt op := by
  unfold op_eff_time
  exact eff_or_run_pos _ rt h

/-- In a record list whose pairwise order is nondecreasing, the last
element's end_ns bounds every element's end_ns. -/
theorem end_le_getLast :
    ∀ (rs : List Record) (b : Record),
      rs.Pairwise (fun x y => x.start_ns ≤ y.start_ns ∧ x.end_ns ≤ y.end_ns) →
      rs.getLast? = some b → ∀ r ∈ rs, r.end_ns ≤ b.end_ns := by
  intro rs
  induction rs with
  | nil => intro b _ hl; simp at hl
  | cons a t ih =>
    intro b hp hl r hr
    rcases t with _ | ⟨c, t2⟩
    · simp [List.getLast?] at hl
      subst hl
      simp at hr
      subst hr
      exact le_refl _
    · rw [List.getLast?_cons_cons] at hl
      have htail := (List.pairwise_cons.mp hp).2
      have hhead := (List.pairwise_cons.mp hp).1
      rcases List.mem_cons.mp hr with rfl | hr2
      · have hb : b ∈ c :: t2 := by
          obtain ⟨hne, rfl⟩ :=
            List.mem_getLast?_eq_getLast (Option.mem_def.mpr hl)
          exact List.getLast_mem hne
        exact (hhead b hb).2
      · exact ih b htail hl r hr2

/-! ### Claim theorems -/

/-- C1: size-bucket classification is a pure total function of the byte
count; on the non-negative integers the code's bucket ordinal lands in
0..8 and agrees with exactly one of the spec's nine boundary intervals
(no gap, no overlap), and the boundary points map as stated: 8191 to
ordinal 1, 8192 to 2, 2147483647 to 7, 2147483648 to 8. -/
theorem size_bucket_partition :
    (∀ n : Nat, bucket_num (n : Int) < 9 ∧
      ∀ k : Nat, InSpecBucket k n ↔ k = bucket_num (n : Int)) ∧
    bucket_num 8191 = 1 ∧ bucket_num 8192 = 2 ∧
    bucket_num 2147483647 = 7 ∧ bucket_num 2147483648 = 8 := by
  refine ⟨fun n => ⟨?_, fun k => ?_⟩, by decide, by decide, by decide, by decide⟩
  · unfold bucket_num BUCKET_8K BUCKET_64K BUCKET_512K BUCKET_4M BUCKET_32M
      BUCKET_256M BUCKET_2G
    split_ifs <;> omega
  · unfold bucket_num InSpecBucket BUCKET_8K BUCKET_64K BUCKET_512K BUCKET_4M
      BUCKET_32M BUCKET_256M BUCKET_2G
    split_ifs <;> omega

/-- C2: for each named category the throughput denominator produced by the
code (compute_op_run_time followed by the positive check of op_eff_time)
equals the spec's effective time window: (min start_ns, max end_ns) over
the category's records, falling back to the overall file run time when
the category is empty or the span is not positive. -/
theorem category_effective_window (rs : List Record) (rt : Int) (op : String) :
    (META_OPS.contains op = true →
      op_eff_time rs rt op = spec_effective_time rs rt META_OPS) ∧
    (op = "GET" → op_eff_time rs rt op = spec_effective_time rs rt ["GET"]) ∧
    (op = "PUT" → op_eff_time rs rt op = spec_effective_time rs rt ["PUT"]) := by
  refine ⟨fun h => ?_, fun h => ?_, fun h => ?_⟩
  · rw [op_eff_time, if_pos h]
    exact compute_then_fallback rs rt META_OPS
  · subst h
    rw [op_eff_time, if_neg (by decide), if_pos rfl]
    exact compute_then_fallback rs rt ["GET"]
  · subst h
    rw [op_eff_time, if_neg (by decide), if_neg (by decide), if_pos rfl]
    exact compute_then_fallback rs rt ["PUT"]

/-- Concrete instance of category_effective_window: one GET record with
window 10 ns inside a 100 ns file gets denominator 10. -/
theorem category_effective_window_witness :
    op_eff_time [exGet] 100 "GET" = spec_effective_time [exGet] 100 ["GET"] ∧
    op_eff_time [exGet] 100 "GET" = 10 :=
  ⟨(category_effective_window [exGet] 100 "GET").2.1 rfl, by decide⟩

/-- C3: consolidation intersects the per-file windows: the global start is
the running maximum of the skip-adjusted starts, the global end the
running minimum of the ends, and the result is NoOverlappingTimeRange
exactly when the global start is not strictly before the global end;
windows 0..100s and 50s..150s intersect to 50s..100s, while 0..10s and
20s..30s yield NoOverlappingTimeRange. -/
theorem consolidation_intersection :
    (∀ (w : FileWindow) (ws : List FileWindow) (skip : Option Int),
      find_time_range (w :: ws) skip =
        if ws.foldl (fun x v => max x (adj_start skip v)) (adj_start skip w)
            ≥ ws.foldl (fun x v => min x v.end_time) w.end_time
        then Except.error ConsolidateError.NoOverlappingTimeRange
        else Except.ok
          (ws.foldl (fun x v => max x (adj_start skip v)) (adj_start skip w),
           ws.foldl (fun x v => min x v.end_time) w.end_time)) ∧
    find_time_range [⟨0, 100000000000⟩, ⟨50000000000, 150000000000⟩] none
      = Except.ok (50000000000, 100000000000) ∧
    find_time_range [⟨0, 10000000000⟩, ⟨20000000000, 30000000000⟩] none
      = Except.error ConsolidateError.NoOverlappingTimeRange := by
  refine ⟨?_, by rfl, by rfl⟩
  intro w ws skip
  have h1 : (w :: ws).foldl (ftr_step skip) (none, none)
      = (some (ws.foldl (fun x v => max x (adj_start skip v)) (adj_start skip w)),
         some (ws.foldl (fun x v => min x v.end_time) w.end_time)) := by
    rw [List.foldl_cons,
      show ftr_step skip (none, none) w
        = (some (adj_start skip w), some w.end_time) from rfl,
      ftr_fold]
  unfold find_time_range
  rw [h1]

/-- C4 counterexample: get_time_range takes the first record's start_ns
and the last record's end_ns, so on a record set that is not
time-ordered the derived start (100) is not a lower bound of all
start_ns values (the second record starts at 0). -/
theorem file_window_first_last_counterexample :
    get_time_range [c4_first, c4_second] = some (100, 50) ∧
    c4_second ∈ [c4_first, c4_second] ∧
    ¬(100 ≤ c4_second.start_ns ∧ c4_second.end_ns ≤ 50) := by
  decide

/-- C4 amended: the overall file window is derived once per file from the
first record's start_ns and the last record's end_ns; whenever the record
set is time-ordered (start_ns and end_ns nondecreasing in file order, the
normal shape of an oplog) this window bounds every record, i.e. it
coincides with the min-start to max-end span the spec describes. -/
theorem file_window_bounds_of_sorted (rs : List Record) (s e : Int)
    (hp : rs.Pairwise (fun x y => x.start_ns ≤ y.start_ns ∧ x.end_ns ≤ y.end_ns))
    (hg : get_time_range rs = some (s, e)) :
    ∀ r ∈ rs, s ≤ r.start_ns ∧ r.end_ns ≤ e := by
  rcases rs with _ | ⟨a, t⟩
  · simp [get_time_range] at hg
  · rcases hl : (a :: t).getLast? with _ | b
    · simp at hl
    · unfold get_time_range at hg
      rw [List.head?_cons, hl] at hg
      simp only [Option.some.injEq, Prod.mk.injEq] at hg
      obtain ⟨rfl, rfl⟩ := hg
      intro r hr
      constructor
      · rcases List.mem_cons.mp hr with rfl | hr2
        · exact le_refl _
        · exact ((List.pairwise_cons.mp hp).1 r hr2).1
      · exact end_le_getLast (a :: t) b hp hl r hr

/-- Concrete instance of file_window_bounds_of_sorted on a time-ordered
two-record file. -/
theorem file_window_bounds_of_sorted_witness :
    get_time_range ex4 = some (0, 60) ∧
    ∀ r ∈ ex4, 0 ≤ r.start_ns ∧ r.end_ns ≤ 60 :=
  ⟨by decide, file_window_bounds_of_sorted ex4 0 60 (by decide) (by decide)⟩

/-- C5 counterexample: a file consisting of one GET record with
start_ns = end_ns has overall run time 0; the bucket row and the GET
summary row are still emitted (count is 1, not 0) and the grand-total
line always prints, and all three divide by denominator 0 — the printed
f64 values are infinite, not finite, and nothing is omitted. -/
theorem zero_runtime_denominator_counterexample :
    get_time_range [cex5] = some (100, 100) ∧
    emitted_denominators [cex5] (100 - 100) = [0, 0, 0] ∧
    emitted_denominators [cex5] (100 - 100) ≠ [] := by
  decide

/-- C5 amended: divide-by-zero is prevented only as long as the overall
file run time is positive: in that case every emitted throughput
denominator (bucket rows, category summary rows, grand total) is
positive, hence every printed value finite; when the overall run time is
itself zero the rows are still emitted with denominator 0 and the report
prints infinity (format_with_commas explicitly formats NaN/inf rather
than omitting the row). -/
theorem positive_runtime_denominators (rs : List Record) (rt : Int)
    (hrt : 0 < rt) : ∀ d ∈ emitted_denominators rs rt, 0 < d := by
  intro d hd
  unfold emitted_denominators at hd
  rcases List.mem_append.mp hd with hd | hd
  · rcases List.mem_append.mp hd with hd | hd
    · obtain ⟨row, _, rfl⟩ := List.mem_map.mp hd
      exact op_eff_time_pos rs rt row.op hrt
    · unfold summary_denominators at hd
      have hone : ∀ (c : Prop) [inst : Decidable c] (t : Int),
          d ∈ (if c then ([] : List Int) else [eff_or_run t rt]) → 0 < d := by
        intro c inst t hmem
        split_ifs at hmem
        · simp at hmem
        · simp at hmem
          subst hmem
          exact eff_or_run_pos t rt hrt
      rcases List.mem_append.mp hd with hd | hd
      · rcases List.mem_append.mp hd with hd | hd
        · exact hone _ _ hd
        · exact hone _ _ hd
      · exact hone _ _ hd
  · simp at hd
    subst hd
    exact hrt

/-- Concrete instance of positive_runtime_denominators: with run time 5
every emitted denominator is positive. -/
theorem positive_runtime_denominators_witness :
    (0 : Int) < 5 ∧ ∀ d ∈ emitted_denominators [] 5, 0 < d :=
  ⟨by decide, positive_runtime_denominators [] 5 (by decide)⟩

/-- C6 counterexample: for an operation outside META/GET/PUT the code uses
the overall file run time (100), not the effective window of the other
operations' records (10), as the throughput denominator. -/
theorem other_ops_window_counterexample :
    claimed_other_denominator [cex6] 100 = 10 ∧
    op_eff_time [cex6] 100 "OTHER" = 100 ∧
    (10 : Int) ≠ 100 := by
  decide

/-- C6 amended: an effective time window is computed only for the three
named categories; every row whose operation is in none of META/GET/PUT
uses the overall file run time as its throughput denominator. -/
theorem other_ops_use_overall_run_time (rs : List Record) (rt : Int)
    (op : String) (h1 : META_OPS.contains op = false) (h2 : op ≠ "GET")
    (h3 : op ≠ "PUT") : op_eff_time rs rt op = rt := by
  rw [op_eff_time, if_neg (fun hc => Bool.false_ne_true (h1.symm.trans hc)),
    if_neg h2, if_neg h3, eff_or_run]
  split_ifs <;> rfl

/-- Concrete instance of other_ops_use_overall_run_time at op OTHER. -/
theorem other_ops_use_overall_run_time_witness :
    META_OPS.contains "OTHER" = false ∧ op_eff_time [cex6] 100 "OTHER" = 100 :=
  ⟨by decide,
    other_ops_use_overall_run_time [cex6] 100 "OTHER" (by decide) (by decide)
      (by decide)⟩

/-- C7: the p90 latency is the type-7 linear-interpolation quantile: for
the duration multiset 1000..10000 ns (1..10 microseconds stored as ns),
the index is 0.9 * 9 = 8.1 and the result interpolates between the 9th
and 10th order statistics to 9.1 microseconds, independently of the order
the durations arrive in. -/
theorem p90_linear_interpolation :
    p90_lat_us [1000, 2000, 3000, 4000, 5000, 6000, 7000, 8000, 9000, 10000]
      = 91 / 10 ∧
    p90_lat_us [10000, 9000, 8000, 7000, 6000, 5000, 4000, 3000, 2000, 1000]
      = 91 / 10 := by
  have h : ⌊(9 / 10 : ℚ) * ((10 : ℚ) - 1)⌋ = 8 := by norm_num [Int.floor_eq_iff]
  constructor
  · rw [p90_lat_us, show List.insertionSort (fun a b => a ≤ b)
        [1000, 2000, 3000, 4000, 5000, 6000, 7000, 8000, 9000, (10000 : Int)]
        = [1000, 2000, 3000, 4000, 5000, 6000, 7000, 8000, 9000, 10000]
      from by decide]
    simp only [List.map_cons, List.map_nil, quantile_linear, List.length_cons,
      List.length_nil]
    norm_num [h, nthD, show Int.toNat 8 = 8 from rfl]
  · rw [p90_lat_us, show List.insertionSort (fun a b => a ≤ b)
        [10000, 9000, 8000, 7000, 6000, 5000, 4000, 3000, 2000, (1000 : Int)]
        = [1000, 2000, 3000, 4000, 5000, 6000, 7000, 8000, 9000, 10000]
      from by decide]
    simp only [List.map_cons, List.map_nil, quantile_linear, List.length_cons,
      List.length_nil]
    norm_num [h, nthD, show Int.toNat 8 = 8 from rfl]

/-- C8: the skip filter is a one-time pre-filter: with derived file start
s and configured skip k, process_file hands all later stages exactly the
records with start_ns strictly greater than s + k; every record at or
below the threshold is discarded, every record above it retained, and no
record is invented. -/
theorem skip_time_pre_filter (rs : List Record) (k s e : Int)
    (hg : get_time_range rs = some (s, e)) :
    process_file rs (some k) = some (skip_filter rs (s + k), s + k, e) ∧
    (∀ r ∈ rs, r.start_ns ≤ s + k → r ∉ skip_filter rs (s + k)) ∧
    (∀ r ∈ rs, s + k < r.start_ns → r ∈ skip_filter rs (s + k)) ∧
    ∀ r ∈ skip_filter rs (s + k), r ∈ rs := by
  refine ⟨?_, ?_, ?_, ?_⟩
  · simp [process_file, hg]
  · intro r _ hle hmem
    rw [skip_filter, List.mem_filter] at hmem
    have := of_decide_eq_true hmem.2
    omega
  · intro r hr hgt
    rw [skip_filter, List.mem_filter]
    exact ⟨hr, decide_eq_true hgt⟩
  · intro r hr
    exact (List.mem_filter.mp hr).1

/-- Concrete instance of skip_time_pre_filter: skip 90 on a file starting
at 0 keeps exactly the record starting at 95. -/
theorem skip_time_pre_filter_witness :
    get_time_range ex8 = some (0, 100) ∧
    process_file ex8 (some 90) = some (skip_filter ex8 (0 + 90), 0 + 90, 100) ∧
    skip_filter ex8 (0 + 90) = [ex8b] :=
  ⟨by decide, (skip_time_pre_filter ex8 90 0 100 (by decide)).1, by decide⟩

/-- C9: the grouped output rows are strictly ascending in
(bucket ordinal, operation name) with ties on the name broken lexically,
and the whole row sequence is invariant under any permutation of the
input records. -/
theorem grouped_rows_sorted_and_permutation_invariant
    (rs rsB : List Record) (hperm : rs.Perm rsB) :
    (grouped_rows rs).Pairwise (fun a b => keyLT (a.bucket, a.op) (b.bucket, b.op)) ∧
    grouped_rows rs = grouped_rows rsB := by
  constructor
  · have hs : (sorted_keys rs).Pairwise keyLE :=
      List.sorted_insertionSort keyLE ((rs.map rkey).dedup)
    have hn : (sorted_keys rs).Nodup :=
      ((List.perm_insertionSort keyLE ((rs.map rkey).dedup)).symm).nodup
        (List.nodup_dedup _)
    have hlt : (sorted_keys rs).Pairwise keyLT :=
      (hs.and hn).imp (fun h => h)
    rw [grouped_rows, List.pairwise_map]
    exact hlt
  · have hkeys : sorted_keys rs = sorted_keys rsB :=
      List.eq_of_perm_of_sorted
        (((List.perm_insertionSort keyLE _).trans ((hperm.map rkey).dedup)).trans
          (List.perm_insertionSort keyLE _).symm)
        (List.sorted_insertionSort keyLE _)
        (List.sorted_insertionSort keyLE _)
    have hgroup : ∀ k, group_of rs k = group_of rsB k := by
      intro k
      have hf : (rs.filter (fun r => decide (rkey r = k))).Perm
          (rsB.filter (fun r => decide (rkey r = k))) := hperm.filter _
      have hlen := hf.length_eq
      have hsum : ((rs.filter (fun r => decide (rkey r = k))).map Record.bytes).sum
          = ((rsB.filter (fun r => decide (rkey r = k))).map Record.bytes).sum :=
        (hf.map Record.bytes).sum_eq
      have hdur : List.insertionSort (fun a b => a ≤ b)
            ((rs.filter (fun r => decide (rkey r = k))).map Record.duration_ns)
          = List.insertionSort (fun a b => a ≤ b)
            ((rsB.filter (fun r => decide (rkey r = k))).map Record.duration_ns) :=
        List.eq_of_perm_of_sorted
          ((List.perm_insertionSort _ _).trans
            ((hf.map Record.duration_ns).trans (List.perm_insertionSort _ _).symm))
          (List.sorted_insertionSort _ _)
          (List.sorted_insertionSort _ _)
      unfold group_of
      simp only [AggRow.mk.injEq]
      exact ⟨trivial, trivial, hlen, hdur, hsum⟩
    rw [grouped_rows, grouped_rows, hkeys, funext hgroup]

/-- Concrete instance of grouped_rows_sorted_and_permutation_invariant: a
three-record set and a rotation of it produce identical rows, in
ascending key order with the bucket-2 tie broken lexically (GET before
PUT). -/
theorem grouped_rows_witness :
    ex9a.Perm ex9b ∧
    grouped_rows ex9a = grouped_rows ex9b ∧
    (grouped_rows ex9a).map (fun r => (r.bucket, r.op))
      = [(0, "GET"), (2, "GET"), (2, "PUT")] :=
  ⟨by decide,
    (grouped_rows_sorted_and_permutation_invariant ex9a ex9b (by decide)).2,
    by decide⟩

/-- C10: the classifier is total on all signed 64-bit byte counts, and
every negative byte count lands in the largest bucket in both
generations: ordinal 8 with label ">2GiB" in the canonical 9-bucket
chain, and Gigantic (ordinal 7, ">= 1 gb") under the older ByteBucket
scheme — never an error and never the zero bucket. -/
theorem negative_bytes_largest_bucket (b : Int) (hb : b < 0) :
    bucket_num b = 8 ∧ bucket_label b = ">2GiB" ∧
    ByteBucket.from_bytes b = ByteBucket.Gigantic ∧
    (ByteBucket.from_bytes b).to_bucket_number = 7 := by
  refine ⟨?_, ?_, ?_, ?_⟩
  · unfold bucket_num BUCKET_8K BUCKET_64K BUCKET_512K BUCKET_4M BUCKET_32M
      BUCKET_256M BUCKET_2G
    split_ifs <;> omega
  · unfold bucket_label BUCKET_8K BUCKET_64K BUCKET_512K BUCKET_4M BUCKET_32M
      BUCKET_256M BUCKET_2G
    split_ifs <;> first | rfl | omega
  · unfold ByteBucket.from_bytes
    split_ifs <;> first | rfl | omega
  · unfold ByteBucket.from_bytes ByteBucket.to_bucket_number
    split_ifs <;> first | rfl | omega

/-- Concrete instance of negative_bytes_largest_bucket at b = -1. -/
theorem negative_bytes_largest_bucket_witness :
    (-1 : Int) < 0 ∧ bucket_num (-1) = 8 ∧
    ByteBucket.from_bytes (-1) = ByteBucket.Gigantic :=
  ⟨by decide, (negative_bytes_largest_bucket (-1) (by decide)).1,
    (negative_bytes_largest_bucket (-1) (by decide)).2.2.1⟩

end PolarWarp
